import Mathlib

/-!
Verification of the portfolio construction engine of
`imamdanisworo/Portofolio-Efficient-Frontier` (`src/app.py`).

The file shallowly embeds the numerical core of the application:
`normalize_weights` (post-processing of the optimizer output),
`optimize_portfolio` (the three constrained solves, with the scipy solver
abstracted as an oracle), the tab-2 analysis pipeline (per-asset window
selection, date intersection, log returns, market alignment), the
per-asset statistics (mean, sample standard deviation, Sharpe ratio) and
the CAPM beta computation.  Machine floats are modelled by exact rationals
(`ℚ`) or, where square roots and real exponents occur, by real numbers;
IEEE NaN and the two infinities are modelled explicitly where the code can
produce them.
-/

namespace PortfolioApp

/-! ## Post-processing of weight vectors (`normalize_weights`, src/app.py 247-250) -/

/-- Round-half-to-even of a rational to an integer.  This is the rounding mode
of `np.round`, applied in `normalize_weights` (src/app.py line 250) to the
value scaled by `10^6`. -/
def rhe (q : ℚ) : ℤ :=
  if Int.fract q < 1/2 then ⌊q⌋
  else if 1/2 < Int.fract q then ⌊q⌋ + 1
  else if ⌊q⌋ % 2 = 0 then ⌊q⌋ else ⌊q⌋ + 1

/-- Rounding to 6 decimal places, `np.round(x, 6)` (src/app.py line 250). -/
def round6 (q : ℚ) : ℚ := (rhe (q * 1000000) : ℚ) / 1000000

/-- Clipping of negative entries to zero: `np.maximum(weights, 0)`
(src/app.py line 248). -/
def clip0 (w : List ℚ) : List ℚ := w.map (fun x => if x < 0 then 0 else x)

/-- `normalize_weights` (src/app.py lines 247-250): clip negative entries to
zero, divide by the sum of the clipped vector, round to 6 decimal places.
A result entry `none` models the IEEE NaN produced by the unguarded division
when the clipped sum is zero: every clipped entry is nonnegative, so the sum
is zero exactly when every clipped entry is zero, and numpy evaluates each
entry as `0.0 / 0.0 = NaN` (and `np.round` of NaN is NaN). -/
def normalize_weights (w : List ℚ) : List (Option ℚ) :=
  (clip0 w).map (fun x =>
    if (clip0 w).sum = 0 then none else some (round6 (x / (clip0 w).sum)))

/-- The concrete input on which the rounded weights sum to `1.000002`. -/
def cexC1 : List ℚ :=
  [6/10000000, 6/10000000, 6/10000000, 6/10000000, 9999976/10000000]

theorem rhe_close (q : ℚ) : |(rhe q : ℚ) - q| ≤ 1/2 := by
  have hf0 : (0:ℚ) ≤ Int.fract q := Int.fract_nonneg q
  have hf1 : Int.fract q < 1 := Int.fract_lt_one q
  have hfl : (⌊q⌋ : ℚ) = q - Int.fract q := by
    rw [Int.fract]; ring
  unfold rhe
  split
  · rename_i h
    rw [hfl, abs_le]
    constructor <;> nlinarith
  · split
    · rename_i h1 h2
      push_cast
      rw [hfl, abs_le]
      constructor <;> nlinarith
    · split
      · rename_i h1 h2 h3
        have he : Int.fract q = 1/2 := le_antisymm (not_lt.mp h2) (not_lt.mp h1)
        rw [hfl, he, abs_le]
        constructor <;> nlinarith
      · rename_i h1 h2 h3
        have he : Int.fract q = 1/2 := le_antisymm (not_lt.mp h2) (not_lt.mp h1)
        push_cast
        rw [hfl, he, abs_le]
        constructor <;> nlinarith

theorem rhe_nonneg (q : ℚ) (h : 0 ≤ q) : 0 ≤ rhe q := by
  have hfl : (0:ℤ) ≤ ⌊q⌋ := Int.floor_nonneg.mpr h
  unfold rhe
  split
  · exact hfl
  · split
    · omega
    · split
      · exact hfl
      · omega

theorem round6_close (q : ℚ) : |round6 q - q| ≤ 1/2000000 := by
  have h := rhe_close (q * 1000000)
  unfold round6
  have : (rhe (q * 1000000) : ℚ) / 1000000 - q
      = ((rhe (q * 1000000) : ℚ) - q * 1000000) / 1000000 := by ring
  rw [this, abs_div]
  rw [show |(1000000:ℚ)| = 1000000 by norm_num]
  rw [div_le_iff₀ (by norm_num : (0:ℚ) < 1000000)]
  calc |(rhe (q * 1000000) : ℚ) - q * 1000000| ≤ 1/2 := h
    _ = 1/2000000 * 1000000 := by norm_num

theorem round6_nonneg (q : ℚ) (h : 0 ≤ q) : 0 ≤ round6 q := by
  unfold round6
  have : (0:ℤ) ≤ rhe (q * 1000000) := rhe_nonneg _ (by positivity)
  positivity

theorem sum_round6_close (l : List ℚ) :
    |(l.map round6).sum - l.sum| ≤ (l.length : ℚ) * (1/2000000) := by
  induction l with
  | nil => simp
  | cons a t ih =>
    have ha := round6_close a
    have : ((a :: t).map round6).sum - (a :: t).sum
        = (round6 a - a) + ((t.map round6).sum - t.sum) := by
      simp [List.sum_cons]; ring
    rw [this]
    calc |(round6 a - a) + ((t.map round6).sum - t.sum)|
        ≤ |round6 a - a| + |(t.map round6).sum - t.sum| := abs_add _ _
      _ ≤ 1/2000000 + (t.length : ℚ) * (1/2000000) := add_le_add ha ih
      _ = ((a :: t).length : ℚ) * (1/2000000) := by
          simp [List.length_cons]; ring

/-- C1 (amended): for every input weight vector whose clipped entries have a
strictly positive sum, the post-processed vector (clip, renormalize, round to
6 decimals) has all entries non-negative and its sum differs from 1 by at
most `n * 5e-7`, where `n` is the number of entries.  (The tolerance `1e-6`
of the original claim fails: each entry contributes a rounding error of up
to `5e-7`.) -/
theorem C1_normalize_weights_nonneg_sum
    (w : List ℚ) (h : 0 < (clip0 w).sum) :
    ∃ v : List ℚ, normalize_weights w = v.map some
      ∧ (∀ x ∈ v, 0 ≤ x)
      ∧ |v.sum - 1| ≤ (w.length : ℚ) * (1/2000000) := by
  have hs : (clip0 w).sum ≠ 0 := ne_of_gt h
  refine ⟨(clip0 w).map (fun x => round6 (x / (clip0 w).sum)), ?_, ?_, ?_⟩
  · unfold normalize_weights
    simp only [if_neg hs, List.map_map]
    rfl
  · intro x hx
    rcases List.mem_map.mp hx with ⟨y, hy, rfl⟩
    have hy0 : 0 ≤ y := by
      rcases List.mem_map.mp hy with ⟨z, _, rfl⟩
      by_cases hz : z < 0
      · simp [hz]
      · simpa [hz] using le_of_not_lt hz
    exact round6_nonneg _ (div_nonneg hy0 (le_of_lt h))
  · have hmap : (clip0 w).map (fun x => round6 (x / (clip0 w).sum))
        = ((clip0 w).map (fun x => x / (clip0 w).sum)).map round6 := by
      rw [List.map_map]; rfl
    rw [hmap]
    have hsum : ((clip0 w).map (fun x => x / (clip0 w).sum)).sum = 1 := by
      have : (clip0 w).map (fun x => x / (clip0 w).sum)
          = (clip0 w).map (fun x => x * ((clip0 w).sum)⁻¹) := by
        simp [div_eq_mul_inv]
      rw [this, List.sum_map_mul_right]
      simp only [List.map_id']
      exact mul_inv_cancel₀ hs
    have hlen : ((clip0 w).map (fun x => x / (clip0 w).sum)).length = w.length := by
      simp [clip0]
    have := sum_round6_close ((clip0 w).map (fun x => x / (clip0 w).sum))
    rw [hsum, hlen] at this
    exact this

/-- C1 witness: a concrete instance of the amended statement at
`w = [1/2, 1/2]`. -/
theorem C1_witness :
    0 < (clip0 [(1:ℚ)/2, 1/2]).sum
    ∧ ∃ v : List ℚ, normalize_weights [(1:ℚ)/2, 1/2] = v.map some
        ∧ (∀ x ∈ v, 0 ≤ x)
        ∧ |v.sum - 1| ≤ (([(1:ℚ)/2, 1/2].length : ℚ)) * (1/2000000) :=
  ⟨by norm_num [clip0], C1_normalize_weights_nonneg_sum [(1:ℚ)/2, 1/2] (by norm_num [clip0])⟩

/-- C1 counterexample: on the input
`[6e-7, 6e-7, 6e-7, 6e-7, 0.9999976]` (clipped sum exactly 1, so the
division leaves it unchanged) the rounded output is
`[1e-6, 1e-6, 1e-6, 1e-6, 0.999998]`, whose sum `1.000002` misses 1 by
`2e-6 > 1e-6`. -/
theorem C1_counterexample :
    0 < (clip0 cexC1).sum
    ∧ normalize_weights cexC1
        = [some (1/1000000), some (1/1000000), some (1/1000000), some (1/1000000),
           some (999998/1000000)]
    ∧ ¬ (|(1/1000000 + 1/1000000 + 1/1000000 + 1/1000000 + 999998/1000000 : ℚ) - 1|
          ≤ 1/1000000) := by
  have hs : (clip0 cexC1).sum = 1 := by norm_num [clip0, cexC1]
  have hr1 : round6 ((3:ℚ)/5000000) = 1/1000000 := by
    have hfl : ⌊((3:ℚ)/5000000) * 1000000⌋ = 0 := by
      rw [Int.floor_eq_iff] <;> norm_num
    unfold round6 rhe
    rw [Int.fract, hfl]
    norm_num
  have hr2 : round6 ((1249997:ℚ)/1250000) = 499999/500000 := by
    have hfl : ⌊((1249997:ℚ)/1250000) * 1000000⌋ = 999997 := by
      rw [Int.floor_eq_iff] <;> norm_num
    unfold round6 rhe
    rw [Int.fract, hfl]
    norm_num
  refine ⟨by rw [hs]; norm_num, ?_, ?_⟩
  · unfold normalize_weights
    simp only [hs]
    norm_num [cexC1, clip0, hr1, hr2]
  · rw [show (1/1000000 + 1/1000000 + 1/1000000 + 1/1000000 + 999998/1000000 : ℚ) - 1
        = 1/500000 by norm_num]
    rw [abs_of_nonneg (by norm_num)]
    norm_num

/-- C10: for every input weight vector with no strictly positive entry, the
clipping sets every entry to zero, the unguarded division is `0/0`, and the
returned vector consists entirely of NaN entries. -/
theorem C10_normalize_weights_all_nan
    (w : List ℚ) (h : ∀ x ∈ w, x ≤ 0) :
    normalize_weights w = List.replicate w.length none := by
  have hz : ∀ x ∈ clip0 w, x = 0 := by
    intro x hx
    rcases List.mem_map.mp hx with ⟨y, hy, rfl⟩
    by_cases hy2 : y < 0
    · simp [hy2]
    · simpa [hy2] using le_antisymm (h y hy) (le_of_not_lt hy2)
  have hsum : (clip0 w).sum = 0 := List.sum_eq_zero hz
  unfold normalize_weights
  simp only [hsum]
  simp [clip0, Function.comp_def]

/-- C10 witness: the concrete all-nonpositive input `[-1, 0]` yields
`[NaN, NaN]`. -/
theorem C10_witness :
    normalize_weights [(-1 : ℚ), 0] = List.replicate 2 none :=
  C10_normalize_weights_all_nan [(-1 : ℚ), 0] (by norm_num)

/-! ## The optimizer (`optimize_portfolio`, src/app.py 71-93) -/

/-- The three objectives minimized by `optimize_portfolio`. -/
inductive Objective
  | maxReturn
  | minVolatility
  | negSharpe
deriving DecidableEq

/-- Result of one `scipy.optimize.minimize` call: the returned point `x`
and the convergence flag `success`. -/
structure MinimizeResult where
  x : List ℚ
  success : Bool
deriving DecidableEq

/-- Error taxonomy of the specification (its section 7).  The source never
constructs a value of this type; it appears in the optimizer result type
only so that the error-handling claims are statable. -/
inductive OptError
  | optimizationFailed (obj : Objective)
deriving DecidableEq

/-- Initial guess `[1/num_assets] * num_assets` (src/app.py line 87). -/
def init_guess (n : ℕ) : List ℚ := List.replicate n (1/(n:ℚ))

/-- Bound list `[(0.0, 0.3)] * num_assets` (src/app.py line 86). -/
def optimize_bounds (n : ℕ) : List (ℚ × ℚ) := List.replicate n (0, 3/10)

/-- `optimize_portfolio` (src/app.py lines 71-93), with the iterative SLSQP
solver abstracted as an oracle mapping an objective, the initial guess and
the bound list to a `MinimizeResult`.  The source reads the `.x` field of
each of the three results and returns the triple directly: no `success`
flag is inspected and no exception is raised, which the `Except` codomain
records by always returning `Except.ok`. -/
def optimize_portfolio
    (solver : Objective → List ℚ → List (ℚ × ℚ) → MinimizeResult) (n : ℕ) :
    Except OptError (List ℚ × List ℚ × List ℚ) :=
  let max_ret := solver .maxReturn (init_guess n) (optimize_bounds n)
  let min_risk := solver .minVolatility (init_guess n) (optimize_bounds n)
  let opt_sharpe := solver .negSharpe (init_guess n) (optimize_bounds n)
  .ok (max_ret.x, min_risk.x, opt_sharpe.x)

/-- A solver oracle that fails to converge on every objective and, like
SLSQP on an infeasible problem, hands back its initial guess. -/
def failSolver : Objective → List ℚ → List (ℚ × ℚ) → MinimizeResult :=
  fun _ init _ => ⟨init, false⟩

/-- Feasibility of a weight vector with respect to a bound list together
with the sum-to-one equality constraint (src/app.py lines 85-86). -/
def FeasibleWeights (w : List ℚ) (bs : List (ℚ × ℚ)) : Prop :=
  w.length = bs.length
  ∧ (∀ p ∈ w.zip bs, p.2.1 ≤ p.1 ∧ p.1 ≤ p.2.2)
  ∧ w.sum = 1

/-- C2 (amended): the optimizer performs no convergence check: even when a
solve reports failure, `optimize_portfolio` returns the three solver
outputs unchanged and never surfaces an `OptimizationFailedError`. -/
theorem C2_no_convergence_check
    (solver : Objective → List ℚ → List (ℚ × ℚ) → MinimizeResult) (n : ℕ)
    (h : (solver .maxReturn (init_guess n) (optimize_bounds n)).success = false
       ∨ (solver .minVolatility (init_guess n) (optimize_bounds n)).success = false
       ∨ (solver .negSharpe (init_guess n) (optimize_bounds n)).success = false) :
    optimize_portfolio solver n
      = Except.ok ((solver .maxReturn (init_guess n) (optimize_bounds n)).x,
          (solver .minVolatility (init_guess n) (optimize_bounds n)).x,
          (solver .negSharpe (init_guess n) (optimize_bounds n)).x) := rfl

/-- C2 witness: the amended statement at the concrete failing oracle. -/
theorem C2_witness :
    (failSolver .negSharpe (init_guess 4) (optimize_bounds 4)).success = false
    ∧ optimize_portfolio failSolver 4
        = Except.ok (init_guess 4, init_guess 4, init_guess 4) :=
  ⟨rfl, C2_no_convergence_check failSolver 4 (Or.inr (Or.inr rfl))⟩

/-- C2 counterexample: with an oracle that fails to converge on every
objective and hands back the initial guess, `optimize_portfolio` silently
returns the initial guess three times as a success value instead of
surfacing an `OptimizationFailedError`. -/
theorem C2_counterexample :
    (failSolver .negSharpe (init_guess 4) (optimize_bounds 4)).success = false
    ∧ optimize_portfolio failSolver 4
        = Except.ok (init_guess 4, init_guess 4, init_guess 4)
    ∧ optimize_portfolio failSolver 4
        ≠ Except.error (OptError.optimizationFailed Objective.negSharpe) :=
  ⟨rfl, rfl, by simp [optimize_portfolio]⟩

theorem sum_le_of_bounds :
    ∀ (w : List ℚ) (n : ℕ), w.length = n →
      (∀ p ∈ w.zip (optimize_bounds n), p.2.1 ≤ p.1 ∧ p.1 ≤ p.2.2) →
      w.sum ≤ (3/10) * (n : ℚ)
  | [], n, hlen, _ => by simp [← hlen]
  | a :: t, n, hlen, hb => by
    cases n with
    | zero => simp at hlen
    | succ m =>
      have hlen2 : t.length = m := by simpa using hlen
      have hzip : (a :: t).zip (optimize_bounds (m+1))
          = (a, ((0:ℚ), (3:ℚ)/10)) :: t.zip (optimize_bounds m) := by
        simp [optimize_bounds, List.replicate_succ]
      rw [hzip] at hb
      have h1 := hb (a, ((0:ℚ), (3:ℚ)/10)) (List.mem_cons_self _ _)
      have h2 : t.sum ≤ (3/10) * (m : ℚ) :=
        sum_le_of_bounds t m hlen2 (fun p hp => hb p (List.mem_cons_of_mem _ hp))
      rw [List.sum_cons]
      push_cast
      nlinarith [h1.2]

/-- C9: every call to the optimizer uses the fixed per-asset bound list
`[(0, 0.3)] * n` independent of `n`, and for every `n ≤ 3` no weight
vector satisfies both the bounds and the sum-to-one equality constraint:
the total weight is at most `0.3 * n ≤ 0.9 < 1`. -/
theorem C9_bounds_infeasible (n : ℕ) (h : n ≤ 3) :
    optimize_bounds n = List.replicate n (0, 3/10)
    ∧ ¬ ∃ w : List ℚ, FeasibleWeights w (optimize_bounds n) := by
  refine ⟨rfl, ?_⟩
  rintro ⟨w, hw⟩
  obtain ⟨hlen, hb, hsum⟩ := hw
  have hlen2 : w.length = n := by simpa [optimize_bounds] using hlen
  have hle := sum_le_of_bounds w n hlen2 hb
  rw [hsum] at hle
  have hn : (n : ℚ) ≤ 3 := by exact_mod_cast h
  nlinarith

/-- C9 witness: the concrete three-asset instance. -/
theorem C9_witness :
    optimize_bounds 3 = List.replicate 3 (0, 3/10)
    ∧ ¬ ∃ w : List ℚ, FeasibleWeights w (optimize_bounds 3) :=
  C9_bounds_infeasible 3 (by norm_num)

/-! ## Objective functions of the three solves (src/app.py 74-83) -/

/-- Dot product of two real vectors, as in `weights @ mean_returns`. -/
def dotR (a b : List ℝ) : ℝ := ((a.zip b).map (fun p => p.1 * p.2)).sum

/-- The quadratic form `weights.T @ cov_matrix @ weights`. -/
def quadForm (cov : List (List ℝ)) (w : List ℝ) : ℝ :=
  dotR w (cov.map (fun row => dotR row w))

/-- `neg_sharpe` objective (src/app.py lines 80-83): the volatility is
`(weights.T @ cov_matrix @ weights) ** 0.5`; when it is zero the objective
is `float("inf")` (modelled as `⊤ : EReal`), otherwise
`-(ret - risk_free_rate) / vol`.  The model is faithful on the
positive-semi-definite regime `0 ≤ w' Σ w` assumed by the claims (for a
negative quadratic form the float power would produce NaN instead). -/
noncomputable def neg_sharpe
    (mean_returns : List ℝ) (cov : List (List ℝ)) (rf : ℝ) (w : List ℝ) : EReal :=
  if Real.sqrt (quadForm cov w) = 0 then ⊤
  else ((-(dotR w mean_returns - rf) / Real.sqrt (quadForm cov w) : ℝ) : EReal)

/-- C7: for a positive-semi-definite risk model, the max-Sharpe objective
evaluates to `+∞` at every weight vector whose portfolio volatility
`sqrt(w' Σ w)` is exactly zero (no division by zero is performed), and to
`-(w·μ - rf) / sqrt(w' Σ w)` at every weight vector with nonzero
volatility. -/
theorem C7_neg_sharpe_guard
    (μ : List ℝ) (cov : List (List ℝ)) (rf : ℝ) (w : List ℝ)
    (hpsd : 0 ≤ quadForm cov w) :
    (Real.sqrt (quadForm cov w) = 0 → neg_sharpe μ cov rf w = ⊤)
    ∧ (Real.sqrt (quadForm cov w) ≠ 0 →
        neg_sharpe μ cov rf w
          = ((-(dotR w μ - rf) / Real.sqrt (quadForm cov w) : ℝ) : EReal)) := by
  constructor
  · intro h0
    unfold neg_sharpe
    rw [if_pos h0]
  · intro h0
    unfold neg_sharpe
    rw [if_neg h0]

/-- C7 witness: with the zero covariance matrix the objective is `+∞`; with
the identity covariance, unit weight, unit mean and zero rate it is `-1`. -/
theorem C7_witness :
    0 ≤ quadForm [[0]] [1]
    ∧ neg_sharpe [0] [[0]] 0 [1] = ⊤
    ∧ neg_sharpe [1] [[1]] 0 [1] = ((-1 : ℝ) : EReal) := by
  have hq0 : quadForm [[(0:ℝ)]] [1] = 0 := by
    simp [quadForm, dotR]
  have hq1 : quadForm [[(1:ℝ)]] [1] = 1 := by
    simp [quadForm, dotR]
  refine ⟨by rw [hq0], ?_, ?_⟩
  · exact (C7_neg_sharpe_guard [0] [[0]] 0 [1] (by rw [hq0])).1
      (by rw [hq0, Real.sqrt_zero])
  · have h := (C7_neg_sharpe_guard [1] [[1]] 0 [1] (by rw [hq1]; norm_num)).2
      (by rw [hq1, Real.sqrt_one]; norm_num)
    rw [h, hq1, Real.sqrt_one]
    have hd : dotR [(1:ℝ)] [1] = 1 := by simp [dotR]
    rw [hd]
    norm_num

/-! ## Per-asset statistics (src/app.py 195-199) -/

/-- Column mean as computed by `df_returns.mean()` (src/app.py line 195);
`none` models the NaN pandas reports on an empty column. -/
def mean_returns_col (r : List ℚ) : Option ℚ :=
  if r.length = 0 then none else some (r.sum / (r.length : ℚ))

/-- Sum of squared deviations from the mean. -/
def sqDev (r : List ℚ) : ℚ := (r.map (fun x => (x - r.sum / (r.length : ℚ))^2)).sum

/-- Column sample variance (`ddof = 1`), the square of `df_returns.std()`
(src/app.py line 197); `none` models the NaN pandas reports on fewer than
two observations. -/
def varS_col (r : List ℚ) : Option ℚ :=
  if r.length ≤ 1 then none else some (sqDev r / ((r.length : ℚ) - 1))

/-- Column volatility as reported at src/app.py line 197: `df_returns.std()`. -/
noncomputable def volatility_col (r : List ℚ) : Option ℝ :=
  (varS_col r).map (fun v => Real.sqrt (v : ℝ))

/-- Modelled from the spec: the reported expected return is the mean of the
periodic returns multiplied by the configured basis (252 or the selected
window length). -/
def spec_expected_return (basis : ℚ) (r : List ℚ) : Option ℚ :=
  (mean_returns_col r).map (fun m => basis * m)

/-- Modelled from the spec: the reported volatility is the standard
deviation of the periodic returns multiplied by the square root of the
configured basis. -/
noncomputable def spec_volatility (basis : ℚ) (r : List ℚ) : Option ℝ :=
  (varS_col r).map (fun v => Real.sqrt (basis : ℝ) * Real.sqrt (v : ℝ))

/-- C5 (amended): the code applies no annualization: the reported expected
return is the raw mean of the periodic returns and the reported volatility
the raw sample standard deviation — the spec formulas hold with basis 1
only. -/
theorem C5_no_annualization (r : List ℚ) :
    mean_returns_col r = spec_expected_return 1 r
    ∧ volatility_col r = spec_volatility 1 r := by
  constructor
  · simp [spec_expected_return]
  · simp [spec_volatility, volatility_col, Real.sqrt_one]

/-- C5 counterexample: on the return series `[0.1, 0.3]` the reported
expected return is the raw mean `0.2`, which differs from `basis * mean`
for basis 252 and for every selectable window length (20, 50, 100, 200,
500). -/
theorem C5_counterexample :
    mean_returns_col [1/10, 3/10] = some (1/5)
    ∧ mean_returns_col [1/10, 3/10] ≠ spec_expected_return 252 [1/10, 3/10]
    ∧ mean_returns_col [1/10, 3/10] ≠ spec_expected_return 20 [1/10, 3/10]
    ∧ mean_returns_col [1/10, 3/10] ≠ spec_expected_return 50 [1/10, 3/10]
    ∧ mean_returns_col [1/10, 3/10] ≠ spec_expected_return 100 [1/10, 3/10]
    ∧ mean_returns_col [1/10, 3/10] ≠ spec_expected_return 200 [1/10, 3/10]
    ∧ mean_returns_col [1/10, 3/10] ≠ spec_expected_return 500 [1/10, 3/10] := by
  have hm : mean_returns_col [(1:ℚ)/10, 3/10] = some (1/5) := by
    norm_num [mean_returns_col]
  have key : ∀ b : ℚ, b * (1/5) ≠ 1/5 →
      mean_returns_col [(1:ℚ)/10, 3/10] ≠ spec_expected_return b [(1:ℚ)/10, 3/10] := by
    intro b hb hc
    rw [hm] at hc
    unfold spec_expected_return at hc
    rw [hm, Option.map_some'] at hc
    exact hb (Option.some_inj.mp hc).symm
  exact ⟨hm, key 252 (by norm_num), key 20 (by norm_num), key 50 (by norm_num),
    key 100 (by norm_num), key 200 (by norm_num), key 500 (by norm_num)⟩

/-! ## Per-asset Sharpe ratio (src/app.py line 199) -/

/-- Value of the float division `(mean - rf) / std`, including the IEEE
non-finite outcomes. -/
inductive SVal
  | nan
  | posInf
  | negInf
  | finite (x : ℝ)

/-- Per-asset Sharpe ratio `(mean_returns - risk_free_rate) / volatility`
(src/app.py line 199), with numpy float-division semantics for a zero
denominator: `positive/0 = +inf`, `negative/0 = -inf`, `0/0 = NaN`.  The
standard deviation is nonnegative, so the denominator is zero exactly when
the sample variance is zero.  Modelled for columns with at least two
observations (on fewer, pandas reports a NaN standard deviation). -/
noncomputable def sharpe_code (r : List ℚ) (rf : ℚ) : SVal :=
  if Real.sqrt ((sqDev r / ((r.length : ℚ) - 1) : ℚ) : ℝ) = 0 then
    (if ((r.sum / (r.length : ℚ) : ℚ) : ℝ) - (rf : ℝ) > 0 then SVal.posInf
     else if ((r.sum / (r.length : ℚ) : ℚ) : ℝ) - (rf : ℝ) < 0 then SVal.negInf
     else SVal.nan)
  else SVal.finite ((((r.sum / (r.length : ℚ) : ℚ) : ℝ) - (rf : ℝ))
    / Real.sqrt ((sqDev r / ((r.length : ℚ) - 1) : ℚ) : ℝ))

/-- Column-wise Sharpe computation over named return columns: pandas
evaluates the Series expression independently per asset. -/
noncomputable def sharpe_all (cols : List (String × List ℚ)) (rf : ℚ) :
    List (String × SVal) :=
  cols.map (fun p => (p.1, sharpe_code p.2 rf))

/-- C8 (amended): for an asset whose returns over a window of at least two
observations have zero variance, the Sharpe computation does not raise and
yields a flagged non-finite value — NaN exactly when the mean return
equals the risk-free rate, and `-inf`/`+inf` otherwise — and every other
asset keeps its own independently computed Sharpe value. -/
theorem C8_zero_vol_sharpe (r : List ℚ) (rf : ℚ)
    (hlen : 2 ≤ r.length) (hvar : sqDev r = 0) :
    (∀ x : ℝ, sharpe_code r rf ≠ SVal.finite x)
    ∧ (sharpe_code r rf = SVal.nan ↔ (r.sum / (r.length : ℚ) : ℚ) = rf)
    ∧ ∀ (cols : List (String × List ℚ)) (c : String) (r2 : List ℚ),
        (c, r2) ∈ cols → (c, sharpe_code r2 rf) ∈ sharpe_all cols rf := by
  have hs : Real.sqrt ((sqDev r / ((r.length : ℚ) - 1) : ℚ) : ℝ) = 0 := by
    rw [hvar, zero_div]
    simp
  unfold sharpe_code
  rw [if_pos hs]
  refine ⟨?_, ?_, ?_⟩
  · intro x
    rcases lt_trichotomy (((r.sum / (r.length : ℚ) : ℚ) : ℝ) - (rf : ℝ)) 0 with hlt | heq | hgt
    · rw [if_neg (by linarith), if_pos hlt]
      simp
    · rw [if_neg (by linarith), if_neg (by linarith)]
      simp
    · rw [if_pos hgt]
      simp
  · constructor
    · intro hnan
      rcases lt_trichotomy (((r.sum / (r.length : ℚ) : ℚ) : ℝ) - (rf : ℝ)) 0 with hlt | heq | hgt
      · rw [if_neg (by linarith), if_pos hlt] at hnan
        exact absurd hnan (by simp)
      · have hre : ((r.sum / (r.length : ℚ) : ℚ) : ℝ) = (rf : ℝ) := by linarith
        exact_mod_cast hre
      · rw [if_pos hgt] at hnan
        exact absurd hnan (by simp)
    · intro heq
      have hre : ((r.sum / (r.length : ℚ) : ℚ) : ℝ) - (rf : ℝ) = 0 := by
        rw [heq]; ring
      rw [if_neg (by rw [hre]; exact lt_irrefl 0), if_neg (by rw [hre]; exact lt_irrefl 0)]
  · intro cols c r2 hmem
    exact List.mem_map.mpr ⟨(c, r2), hmem, rfl⟩

/-- C8 witness: the amended statement at the constant-return column
`[0, 0]` with a 5 percent risk-free rate. -/
theorem C8_witness :
    sharpe_code [0, 0] (1/20) ≠ SVal.finite 0
    ∧ sharpe_code [0, 0] (1/20) ≠ SVal.nan := by
  have h := C8_zero_vol_sharpe [0, 0] (1/20) (by norm_num) (by norm_num [sqDev])
  refine ⟨h.1 0, ?_⟩
  intro hc
  have hm := (h.2.1).mp hc
  norm_num at hm

/-- C8 counterexample: a constant-price asset (periodic returns `[0, 0]`,
zero variance) with a 5 percent risk-free rate yields Sharpe `-inf`, not
the NaN required by the claim. -/
theorem C8_counterexample :
    sqDev [0, 0] = 0
    ∧ sharpe_code [0, 0] (1/20) = SVal.negInf
    ∧ SVal.negInf ≠ SVal.nan := by
  have hsd : sqDev ([0, 0] : List ℚ) = 0 := by norm_num [sqDev]
  have hs : Real.sqrt ((sqDev ([0, 0] : List ℚ)
      / ((([0, 0] : List ℚ).length : ℚ) - 1) : ℚ) : ℝ) = 0 := by
    rw [hsd, zero_div]
    simp
  have hm : ((([0, 0] : List ℚ).sum / (([0, 0] : List ℚ).length : ℚ) : ℚ) : ℝ)
      - (((1:ℚ)/20 : ℚ) : ℝ) = -(1/20) := by
    push_cast
    norm_num
  refine ⟨hsd, ?_, by simp⟩
  unfold sharpe_code
  rw [if_pos hs, hm]
  rw [if_neg (by norm_num), if_pos (by norm_num)]

/-! ## CAPM beta (src/app.py 203-211) -/

/-- Periodized risk-free rate `(1 + risk_free_rate) ** (1/252) - 1`
(src/app.py line 203). -/
noncomputable def daily_rf (rf : ℝ) : ℝ := (1 + rf) ^ ((1:ℝ)/252) - 1

/-- Mean of a list of reals. -/
noncomputable def lmean (l : List ℝ) : ℝ := l.sum / l.length

/-- Sample covariance `np.cov(x, y)[0][1]` (numpy default `ddof = 1`,
normalization by `n - 1`). -/
noncomputable def covS (x y : List ℝ) : ℝ :=
  (((x.zip y).map (fun p => (p.1 - lmean x) * (p.2 - lmean y))).sum) / ((x.length : ℝ) - 1)

/-- Population variance `np.var(x)` (numpy default `ddof = 0`,
normalization by `n`). -/
noncomputable def varP (x : List ℝ) : ℝ :=
  ((x.map (fun t => (t - lmean x)^2)).sum) / (x.length : ℝ)

/-- The beta computation of the CAPM loop (src/app.py lines 207-211):
excess series subtract `daily_rf`, and beta is
`np.cov(excess_stock, excess_market)[0][1] / np.var(excess_market)` — a
sample covariance over a population variance; `none` models the `np.nan`
branch taken when the market variance is zero. -/
noncomputable def beta_code (r m : List ℝ) (rf : ℝ) : Option ℝ :=
  if varP (m.map (fun t => t - daily_rf rf)) = 0 then none
  else some (covS (r.map (fun t => t - daily_rf rf)) (m.map (fun t => t - daily_rf rf))
    / varP (m.map (fun t => t - daily_rf rf)))

theorem varP_pair (a b : ℝ) : varP [a, b] = (a - b)^2 / 4 := by
  simp [varP, lmean]
  ring

theorem covS_self_pair (a b : ℝ) : covS [a, b] [a, b] = (a - b)^2 / 2 := by
  simp [covS, lmean]
  ring

/-- C4: the beta-sanity property fails on the code: for an asset whose
return series equals the market series `[0.01, 0.02]` (two aligned
observations, nonzero market variance, annual risk-free rate 5 percent)
the computed beta is `2`, not `1 ± 1e-6`.  The cause: `np.cov` normalizes
by `n - 1` while `np.var` normalizes by `n`, so identical series yield
`n / (n - 1)`. -/
theorem C4_beta_of_market_itself_not_one :
    beta_code [1/100, 2/100] [1/100, 2/100] (5/100) = some 2 := by
  unfold beta_code
  have hmap : ([1/100, 2/100] : List ℝ).map (fun t => t - daily_rf (5/100))
      = [1/100 - daily_rf (5/100), 2/100 - daily_rf (5/100)] := by simp
  rw [hmap, varP_pair, covS_self_pair]
  have hd : (1/100 - daily_rf (5/100) - (2/100 - daily_rf (5/100)) : ℝ) = -(1/100) := by
    ring
  rw [hd]
  rw [if_neg (by norm_num)]
  norm_num

/-! ## Tab-2 analysis pipeline (src/app.py 181-191) -/

/-- One row of the concatenated price frame `df_all`: date (as an ordinal
day), stock code, closing price. -/
structure Row where
  tanggal : ℕ
  kode : String
  penutupan : ℚ
deriving DecidableEq

/-- Membership test `df_all['Kode Saham'].isin(selected_stocks)`
(src/app.py line 181). -/
def inSel (selected : List String) (r : Row) : Bool := selected.contains r.kode

/-- Row filter by stock code. -/
def byKode (c : String) (r : Row) : Bool := r.kode == c

/-- The date-descending row order of
`sort_values(by="Tanggal", ascending=False)` (src/app.py line 182). -/
def rowGE (r s : Row) : Prop := s.tanggal ≤ r.tanggal

instance : DecidableRel rowGE := fun r s => Nat.decLe s.tanggal r.tanggal

instance : IsTotal Row rowGE := ⟨fun r s => le_total s.tanggal r.tanggal⟩

instance : IsTrans Row rowGE := ⟨fun _ _ _ h1 h2 => le_trans h2 h1⟩

/-- Descending order on dates. -/
def natGE (a b : ℕ) : Prop := b ≤ a

instance : DecidableRel natGE := fun a b => Nat.decLe b a

instance : IsTotal ℕ natGE := ⟨fun a b => le_total b a⟩

instance : IsTrans ℕ natGE := ⟨fun _ _ _ h1 h2 => le_trans h2 h1⟩

instance : IsAntisymm ℕ natGE := ⟨fun _ _ h1 h2 => le_antisymm h2 h1⟩

def sortDescRows (l : List Row) : List Row := List.insertionSort rowGE l

def sortAscNat (l : List ℕ) : List ℕ := List.insertionSort (fun a b : ℕ => a ≤ b) l

/-- `groupby("Kode Saham").head(period)` (src/app.py line 183): keep a row
when fewer than `period` rows of the same code precede it, scanning in the
current (date-descending) order. -/
def groupHeadAux (period : ℕ) (seen : List String) : List Row → List Row
  | [] => []
  | r :: rs =>
    if seen.count r.kode < period then r :: groupHeadAux period (r.kode :: seen) rs
    else groupHeadAux period (r.kode :: seen) rs

/-- The per-asset trailing window (src/app.py lines 181-183): filter to the
selected codes, sort date-descending, keep the first `period` rows per
code. -/
def selectWindow (df : List Row) (selected : List String) (period : ℕ) : List Row :=
  groupHeadAux period [] (sortDescRows (df.filter (inSel selected)))

/-- Dates with a recorded price for code `c` in frame `df`. -/
def datesOf (df : List Row) (c : String) : List ℕ :=
  (df.filter (byKode c)).map (fun r => r.tanggal)

/-- Window dates of code `c` after `selectWindow`. -/
def windowDates (wr : List Row) (c : String) : List ℕ :=
  (wr.filter (byKode c)).map (fun r => r.tanggal)

/-- The pivot columns: codes appearing in the windowed frame. -/
def pivotCols (wr : List Row) : List String := (wr.map (fun r => r.kode)).dedup

/-- The pivot index after `dropna(axis=0)` (src/app.py lines 185-186):
the dates of the windowed frame, ascending, restricted to the dates at
which every pivot column has a value. -/
def alignedDates (wr : List Row) : List ℕ :=
  (sortAscNat ((wr.map (fun r => r.tanggal)).dedup)).filter
    (fun d => (pivotCols wr).all (fun c => (windowDates wr c).contains d))

/-- The pivot cell: the first recorded price of code `c` at date `d` in
the windowed frame (well defined when `(date, code)` pairs are unique). -/
def priceAt (wr : List Row) (c : String) (d : ℕ) : Option ℚ :=
  (wr.find? (fun r => byKode c r && r.tanggal == d)).map (fun r => r.penutupan)

/-- Whether the float `log(pt / pprev)` is NaN, in which case `dropna`
removes the row (src/app.py line 187).  NaN arises for a negative ratio
(`np.log` of a negative float) and for `0/0`; `log(0) = -inf` and
`log(+inf) = +inf` are non-finite but survive `dropna`. -/
def retNan (pt pprev : ℚ) : Bool :=
  decide (pt * pprev < 0) || (pprev == 0 && decide (pt ≤ 0))

/-- Dates of the return rows surviving `dropna` (src/app.py line 187): the
log-return at date `p.2` with predecessor date `p.1` in the aligned index
is kept when no pivot column's price ratio produces NaN. -/
def returnDates (df : List Row) (selected : List String) (period : ℕ) : List ℕ :=
  ((alignedDates (selectWindow df selected period)).zip
    (alignedDates (selectWindow df selected period)).tail).filterMap
    (fun p =>
      if (pivotCols (selectWindow df selected period)).all
          (fun c => !(retNan ((priceAt (selectWindow df selected period) c p.2).getD 0)
            ((priceAt (selectWindow df selected period) c p.1).getD 0))) then
        some p.2
      else none)

/-- Modelled from the spec: the `window` most-recent dates that have a
recorded price, i.e. the prefix of length `window` of the dates in
descending order. -/
def specMostRecent (dates : List ℕ) (window : ℕ) : List ℕ :=
  (List.insertionSort natGE dates).take window

/-- `index_filtered` (src/app.py line 189): the market index series
restricted to the return dates, in date order (the series was sorted at
load time, src/app.py line 68). -/
def indexFiltered (mkt : List (ℕ × ℚ)) (rd : List ℕ) : List (ℕ × ℚ) :=
  (List.insertionSort (fun a b : ℕ × ℚ => a.1 ≤ b.1) mkt).filter
    (fun p => rd.contains p.1)

/-- Dates of `market_returns` surviving `dropna` (src/app.py line 190). -/
def marketRetDates (mkt : List (ℕ × ℚ)) (rd : List ℕ) : List ℕ :=
  ((indexFiltered mkt rd).zip (indexFiltered mkt rd).tail).filterMap
    (fun p => if retNan p.2.2 p.1.2 then none else some p.2.1)

/-- The dates of the return rows that remain after the market alignment
`df_returns = df_returns.loc[market_returns.index]` (src/app.py line 191)
and therefore feed `.mean()`, `.cov()` and the optimizer. -/
def finalReturnDates (df : List Row) (selected : List String) (period : ℕ)
    (mkt : List (ℕ × ℚ)) : List ℕ :=
  marketRetDates mkt (returnDates df selected period)

/-- Shape summary of one run of the tab-2 analysis. -/
structure AnalysisOut where
  aligned : List ℕ
  retDates : List ℕ
  covRows : ℕ
deriving DecidableEq

/-- Error taxonomy of the specification (its section 7) for the analysis
stage. -/
inductive AnalysisError
  | insufficientData
deriving DecidableEq

/-- Result of the analysis: a normal result, an uncaught Python exception
(`raised`), or a typed error of the taxonomy of the spec — which the
source never produces. -/
inductive Outcome
  | ok (out : AnalysisOut)
  | raised
  | err (e : AnalysisError)
deriving DecidableEq

/-- The tab-2 analysis (src/app.py lines 181-244) reduced to its control
flow and to the data shapes that reach the optimizer: with an empty pivot,
line 193 (`df_pivot.sort_index().iloc[-1]`) raises an uncaught IndexError;
on every other input the statistics and the `optimize_portfolio` call at
line 244 are reached unconditionally — the source contains no
insufficient-data check, so no `Outcome.err` is ever produced. -/
def tab2_analysis (df : List Row) (selected : List String) (period : ℕ)
    (mkt : List (ℕ × ℚ)) : Outcome :=
  if alignedDates (selectWindow df selected period) = [] then Outcome.raised
  else Outcome.ok
    { aligned := alignedDates (selectWindow df selected period)
      retDates := returnDates df selected period
      covRows := (finalReturnDates df selected period mkt).length }

/-- A concrete frame with a single recorded price: one aligned date. -/
def panel1 : List Row := [⟨0, "A", 1⟩]

/-- A one-point market index series. -/
def mkt0 : List (ℕ × ℚ) := [(0, 100)]

theorem zip_tail_nil {l : List ℕ} (h : l.length ≤ 1) : l.zip l.tail = [] := by
  match l, h with
  | [], _ => rfl
  | [a], _ => rfl

/-- C6 (amended): when windowing and intersection leave fewer than two
aligned observations the code does not produce an `InsufficientDataError`:
with zero aligned dates it raises an uncaught IndexError at line 193, and
with exactly one aligned date it proceeds — the return matrix has zero
rows and the zero-row-derived (NaN) statistics are passed to the
optimizer. -/
theorem C6_no_insufficient_data_check
    (df : List Row) (selected : List String) (period : ℕ)
    (mkt : List (ℕ × ℚ))
    (h : (alignedDates (selectWindow df selected period)).length ≤ 1) :
    (∀ e, tab2_analysis df selected period mkt ≠ Outcome.err e)
    ∧ returnDates df selected period = []
    ∧ ((alignedDates (selectWindow df selected period)).length = 1 →
        tab2_analysis df selected period mkt
          = Outcome.ok ⟨alignedDates (selectWindow df selected period), [], 0⟩) := by
  have hret : returnDates df selected period = [] := by
    unfold returnDates
    rw [zip_tail_nil h]
    rfl
  have hfin : finalReturnDates df selected period mkt = [] := by
    unfold finalReturnDates marketRetDates
    have hif : indexFiltered mkt (returnDates df selected period) = [] := by
      unfold indexFiltered
      rw [hret]
      apply List.filter_eq_nil.mpr
      intro p _
      simp [List.contains]
    rw [hif]
    rfl
  refine ⟨?_, hret, ?_⟩
  · intro e
    unfold tab2_analysis
    split
    · intro hc
      exact Outcome.noConfusion hc
    · intro hc
      exact Outcome.noConfusion hc
  · intro h1
    have hne : alignedDates (selectWindow df selected period) ≠ [] := by
      intro hc
      rw [hc] at h1
      simp at h1
    unfold tab2_analysis
    rw [if_neg hne, hret, hfin]
    rfl

/-- C6 counterexample: with a single aligned date the analysis returns a
normal result whose return matrix has zero rows — the zero-row-derived
statistics reach the optimizer and no `InsufficientDataError` appears. -/
theorem C6_counterexample :
    (alignedDates (selectWindow panel1 ["A"] 20)).length = 1
    ∧ tab2_analysis panel1 ["A"] 20 mkt0 = Outcome.ok ⟨[0], [], 0⟩
    ∧ tab2_analysis panel1 ["A"] 20 mkt0 ≠ Outcome.err AnalysisError.insufficientData := by
  refine ⟨?_, ?_, ?_⟩ <;> decide

/-- C6 witness: the amended statement at the one-price frame. -/
theorem C6_witness :
    (alignedDates (selectWindow panel1 ["A"] 20)).length ≤ 1
    ∧ tab2_analysis panel1 ["A"] 20 mkt0 ≠ Outcome.err AnalysisError.insufficientData :=
  ⟨by decide, (C6_no_insufficient_data_check panel1 ["A"] 20 mkt0 (by decide)).1
    AnalysisError.insufficientData⟩

theorem groupHeadAux_filter (period : ℕ) (c : String) :
    ∀ (l : List Row) (seen : List String),
      (groupHeadAux period seen l).filter (byKode c)
        = (l.filter (byKode c)).take (period - seen.count c)
  | [], seen => by simp [groupHeadAux]
  | r :: rs, seen => by
    by_cases hk : r.kode = c
    · have hcnt : (r.kode :: seen).count c = seen.count c + 1 := by
        rw [List.count_cons]
        simp [hk]
      have hkb : byKode c r = true := by simp [byKode, hk]
      by_cases hlt : seen.count r.kode < period
      · simp only [groupHeadAux, if_pos hlt]
        rw [List.filter_cons, if_pos hkb]
        rw [groupHeadAux_filter period c rs (r.kode :: seen), hcnt]
        rw [List.filter_cons, if_pos hkb]
        have harith : period - seen.count c = (period - (seen.count c + 1)) + 1 := by
          rw [hk] at hlt
          omega
        rw [harith, List.take_succ_cons]
      · simp only [groupHeadAux, if_neg hlt]
        rw [groupHeadAux_filter period c rs (r.kode :: seen), hcnt]
        rw [List.filter_cons, if_pos hkb]
        have h0 : period - (seen.count c + 1) = 0 := by rw [hk] at hlt; omega
        have h1 : period - seen.count c = 0 := by rw [hk] at hlt; omega
        rw [h0, h1]
        simp
    · have hcnt : (r.kode :: seen).count c = seen.count c := by
        rw [List.count_cons]
        simp [hk]
      have hkb : byKode c r = false := by
        simp [byKode]
        intro hc
        exact absurd hc hk
      by_cases hlt : seen.count r.kode < period
      · simp only [groupHeadAux, if_pos hlt]
        rw [List.filter_cons]
        simp only [hkb, if_neg Bool.false_ne_true]
        rw [groupHeadAux_filter period c rs (r.kode :: seen), hcnt]
        rw [List.filter_cons]
        simp only [hkb, if_neg Bool.false_ne_true]
      · simp only [groupHeadAux, if_neg hlt]
        rw [groupHeadAux_filter period c rs (r.kode :: seen), hcnt]
        rw [List.filter_cons]
        simp only [hkb, if_neg Bool.false_ne_true]

theorem selectWindow_filter (df : List Row) (selected : List String) (period : ℕ)
    (c : String) :
    (selectWindow df selected period).filter (byKode c)
      = ((sortDescRows (df.filter (inSel selected))).filter (byKode c)).take period := by
  unfold selectWindow
  rw [groupHeadAux_filter]
  simp

/-- The per-asset windowed dates are exactly the spec-side selection of the
`period` most-recent recorded dates. -/
theorem windowDates_eq_specMostRecent (df : List Row) (selected : List String)
    (period : ℕ) (c : String) (hc : c ∈ selected) :
    windowDates (selectWindow df selected period) c
      = specMostRecent (datesOf df c) period := by
  unfold windowDates specMostRecent
  rw [selectWindow_filter, List.map_take]
  congr 1
  apply List.eq_of_perm_of_sorted (r := natGE)
  · have hp : List.Perm (sortDescRows (df.filter (inSel selected)))
        (df.filter (inSel selected)) :=
      List.perm_insertionSort rowGE _
    have heq : (df.filter (inSel selected)).filter (byKode c) = df.filter (byKode c) := by
      rw [List.filter_filter]
      apply List.filter_congr
      intro r _
      by_cases hk : r.kode = c
      · have hin : inSel selected r = true := by
          simp [inSel, List.contains, hk]
          exact hc
        simp [byKode, hk, hin]
      · simp [byKode]
        intro hcc
        exact absurd hcc hk
    have s1 : List.Perm
        (((sortDescRows (df.filter (inSel selected))).filter (byKode c)).map
          (fun r => r.tanggal))
        (((df.filter (inSel selected)).filter (byKode c)).map (fun r => r.tanggal)) :=
      (hp.filter _).map _
    rw [heq] at s1
    exact s1.trans (List.perm_insertionSort natGE (datesOf df c)).symm
  · exact ((List.sorted_insertionSort rowGE _).filter _).map _ (fun _ _ h => h)
  · exact List.sorted_insertionSort natGE _

theorem groupHeadAux_subset (period : ℕ) :
    ∀ (l : List Row) (seen : List String) (r : Row),
      r ∈ groupHeadAux period seen l → r ∈ l
  | [], _, r => by simp [groupHeadAux]
  | x :: rs, seen, r => by
    intro hmem
    simp only [groupHeadAux] at hmem
    split at hmem
    · rcases List.mem_cons.mp hmem with h | h
      · exact h ▸ List.mem_cons_self x rs
      · exact List.mem_cons_of_mem x (groupHeadAux_subset period rs (x.kode :: seen) r h)
    · exact List.mem_cons_of_mem x (groupHeadAux_subset period rs (x.kode :: seen) r hmem)

theorem selectWindow_kode_mem (df : List Row) (selected : List String) (period : ℕ)
    (r : Row) (hr : r ∈ selectWindow df selected period) :
    r ∈ df ∧ r.kode ∈ selected := by
  have h1 : r ∈ sortDescRows (df.filter (inSel selected)) :=
    groupHeadAux_subset period _ [] r hr
  have h2 : r ∈ df.filter (inSel selected) := (List.mem_insertionSort rowGE).mp h1
  have h3 := List.mem_filter.mp h2
  refine ⟨h3.1, ?_⟩
  have h4 := h3.2
  simpa [inSel, List.contains] using h4

/-- The aligned (surviving-`dropna`) dates are exactly those contained in
every selected asset's window. -/
theorem alignedDates_mem (df : List Row) (selected : List String) (period : ℕ)
    (hne : selected ≠ []) (hper : 1 ≤ period)
    (hpresent : ∀ c ∈ selected, datesOf df c ≠ []) (d : ℕ) :
    d ∈ alignedDates (selectWindow df selected period)
      ↔ ∀ c ∈ selected, d ∈ windowDates (selectWindow df selected period) c := by
  have hpc_sub : ∀ c ∈ pivotCols (selectWindow df selected period), c ∈ selected := by
    intro c hcp
    unfold pivotCols at hcp
    rcases List.mem_map.mp (List.mem_dedup.mp hcp) with ⟨r, hr, rfl⟩
    exact (selectWindow_kode_mem df selected period r hr).2
  have hsel_pc : ∀ c ∈ selected, c ∈ pivotCols (selectWindow df selected period) := by
    intro c hcs
    have hw : windowDates (selectWindow df selected period) c ≠ [] := by
      rw [windowDates_eq_specMostRecent df selected period c hcs]
      unfold specMostRecent
      intro hnil
      have hlen := congrArg List.length hnil
      rw [List.length_take, List.length_nil] at hlen
      have h2 : (List.insertionSort natGE (datesOf df c)).length = (datesOf df c).length :=
        (List.perm_insertionSort natGE _).length_eq
      rw [h2] at hlen
      have h3 : (datesOf df c).length ≠ 0 :=
        fun h0 => hpresent c hcs (List.length_eq_zero.mp h0)
      omega
    rcases List.exists_mem_of_ne_nil _ hw with ⟨d0, hd0⟩
    unfold windowDates at hd0
    rcases List.mem_map.mp hd0 with ⟨r, hrf, _⟩
    have hrw := List.mem_filter.mp hrf
    have hrk : r.kode = c := by
      have h5 := hrw.2
      simpa [byKode] using h5
    unfold pivotCols
    rw [List.mem_dedup]
    exact List.mem_map.mpr ⟨r, hrw.1, hrk⟩
  unfold alignedDates
  constructor
  · intro hd
    have hmf := List.mem_filter.mp hd
    intro c hcs
    have hall := hmf.2
    rw [List.all_eq_true] at hall
    have h6 := hall c (hsel_pc c hcs)
    simpa [List.contains] using h6
  · intro hall
    rw [List.mem_filter]
    constructor
    · rcases List.exists_mem_of_ne_nil selected hne with ⟨c0, hc0⟩
      have hd0 := hall c0 hc0
      unfold windowDates at hd0
      rcases List.mem_map.mp hd0 with ⟨r, hrf, hrt⟩
      have hr : r ∈ selectWindow df selected period := (List.mem_filter.mp hrf).1
      unfold sortAscNat
      rw [List.mem_insertionSort, List.mem_dedup]
      exact List.mem_map.mpr ⟨r, hr, hrt⟩
    · rw [List.all_eq_true]
      intro c hcp
      have h7 := hall c (hpc_sub c hcp)
      simpa [List.contains] using h7

/-- A concrete frame: one asset `"A"` with 500 daily closing prices at
dates 0..499 (date-descending, as `df_all` is sorted at src/app.py line
173). -/
def panel500 : List Row := (List.range 500).map (fun i => ⟨499 - i, "A", 1⟩)

theorem panel500_kode (r : Row) (hr : r ∈ panel500) : r.kode = "A" := by
  rcases List.mem_map.mp hr with ⟨i, _, rfl⟩
  rfl

theorem panel500_price (r : Row) (hr : r ∈ panel500) : r.penutupan = 1 := by
  rcases List.mem_map.mp hr with ⟨i, _, rfl⟩
  rfl

theorem panel500_sorted : List.Sorted rowGE panel500 :=
  (List.pairwise_lt_range 500).map _ (fun a b hab => by
    show 499 - b ≤ 499 - a
    omega)

theorem panel500_map_tanggal :
    panel500.map (fun r => r.tanggal) = (List.range 500).map (fun i => 499 - i) := by
  unfold panel500
  rw [List.map_map]
  rfl

theorem panel500_filter_inSel : panel500.filter (inSel ["A"]) = panel500 := by
  apply List.filter_eq_self.mpr
  intro r hr
  rw [inSel, panel500_kode r hr]
  decide

theorem panel500_filter_byKode : panel500.filter (byKode "A") = panel500 := by
  apply List.filter_eq_self.mpr
  intro r hr
  rw [byKode, panel500_kode r hr]
  decide

theorem panel500_datesOf :
    datesOf panel500 "A" = (List.range 500).map (fun i => 499 - i) := by
  unfold datesOf
  rw [panel500_filter_byKode, panel500_map_tanggal]

theorem panel500_selectWindow : selectWindow panel500 ["A"] 20 = panel500.take 20 := by
  have hsd : sortDescRows (panel500.filter (inSel ["A"])) = panel500 := by
    rw [panel500_filter_inSel]
    exact panel500_sorted.insertionSort_eq
  have hall : ∀ r ∈ selectWindow panel500 ["A"] 20, byKode "A" r = true := by
    intro r hr
    have h1 : r ∈ panel500 := by
      have h2 := groupHeadAux_subset 20 _ [] r hr
      rw [hsd] at h2
      exact h2
    rw [byKode, panel500_kode r h1]
    decide
  have h2 := selectWindow_filter panel500 ["A"] 20 "A"
  rw [List.filter_eq_self.mpr hall] at h2
  rw [hsd, panel500_filter_byKode] at h2
  exact h2

theorem panel500_take_kode (r : Row) (hr : r ∈ panel500.take 20) : r.kode = "A" :=
  panel500_kode r (List.take_subset 20 panel500 hr)

theorem panel500_take_length : (panel500.take 20).length = 20 := by
  rw [List.length_take]
  unfold panel500
  rw [List.length_map, List.length_range]
  omega

theorem panel500_selectWindow_length : (selectWindow panel500 ["A"] 20).length = 20 := by
  rw [panel500_selectWindow, panel500_take_length]

theorem panel500_W_nodup : ((panel500.take 20).map (fun r => r.tanggal)).Nodup := by
  rw [List.map_take, panel500_map_tanggal]
  have hnd : ((List.range 500).map (fun i => 499 - i)).Nodup := by
    apply List.Nodup.map_on
    · intro x hx y hy hxy
      rw [List.mem_range] at hx hy
      omega
    · exact List.nodup_range 500
  exact hnd.sublist (List.take_sublist 20 _)

theorem panel500_pivotCols : pivotCols (panel500.take 20) = ["A"] := by
  unfold pivotCols
  have hmap : (panel500.take 20).map (fun r => r.kode)
      = (panel500.take 20).map (fun _ => "A") :=
    List.map_congr_left (fun r hr => panel500_take_kode r hr)
  rw [hmap, List.map_const', panel500_take_length]
  have hded : ∀ n : ℕ, (List.replicate (n+1) "A").dedup = ["A"] := by
    intro n
    induction n with
    | zero => rfl
    | succ m ih =>
      rw [List.replicate_succ, List.dedup_cons_of_mem (by simp [List.mem_replicate])]
      exact ih
  exact hded 19

theorem panel500_windowDates :
    windowDates (panel500.take 20) "A" = (panel500.take 20).map (fun r => r.tanggal) := by
  have hall : ∀ r ∈ panel500.take 20, byKode "A" r = true := by
    intro r hr
    rw [byKode, panel500_take_kode r hr]
    decide
  unfold windowDates
  rw [List.filter_eq_self.mpr hall]

theorem panel500_aligned :
    alignedDates (panel500.take 20)
      = sortAscNat ((panel500.take 20).map (fun r => r.tanggal)) := by
  unfold alignedDates
  rw [List.dedup_eq_self.mpr panel500_W_nodup]
  apply List.filter_eq_self.mpr
  intro d hd
  rw [panel500_pivotCols, List.all_cons, List.all_nil, Bool.and_true, panel500_windowDates]
  have hdW : d ∈ (panel500.take 20).map (fun r => r.tanggal) := by
    unfold sortAscNat at hd
    exact (List.mem_insertionSort (fun a b : ℕ => a ≤ b)).mp hd
  simpa [List.contains] using hdW

theorem panel500_aligned_length : (alignedDates (panel500.take 20)).length = 20 := by
  rw [panel500_aligned]
  unfold sortAscNat
  rw [(List.perm_insertionSort _ _).length_eq, List.length_map, panel500_take_length]

theorem panel500_priceAt (d : ℕ)
    (hd : d ∈ (panel500.take 20).map (fun r => r.tanggal)) :
    priceAt (panel500.take 20) "A" d = some 1 := by
  unfold priceAt
  rcases List.mem_map.mp hd with ⟨r, hr, rfl⟩
  have hpred : (fun x => byKode "A" x && x.tanggal == r.tanggal) r = true := by
    show (byKode "A" r && (r.tanggal == r.tanggal)) = true
    rw [byKode, panel500_take_kode r hr]
    simp
  have hfind : ((panel500.take 20).find?
      (fun x => byKode "A" x && x.tanggal == r.tanggal)).isSome := by
    rw [List.find?_isSome]
    exact ⟨r, hr, hpred⟩
  cases hfd : (panel500.take 20).find? (fun x => byKode "A" x && x.tanggal == r.tanggal) with
  | none =>
    rw [hfd] at hfind
    simp at hfind
  | some x =>
    have hx := List.mem_of_find?_eq_some hfd
    simp [panel500_price x (List.take_subset 20 panel500 hx)]

theorem retNan_one_one : retNan 1 1 = false := by
  simp [retNan]

theorem filterMap_eq_map_of_forall {α β : Type} (f : α → Option β) (g : α → β) :
    ∀ l : List α, (∀ p ∈ l, f p = some (g p)) → l.filterMap f = l.map g
  | [], _ => rfl
  | a :: t, h => by
    rw [List.filterMap_cons, h a (List.mem_cons_self a t), List.map_cons,
      filterMap_eq_map_of_forall f g t (fun p hp => h p (List.mem_cons_of_mem a hp))]

theorem panel500_returnDates_length : (returnDates panel500 ["A"] 20).length = 19 := by
  unfold returnDates
  simp only [panel500_selectWindow]
  rw [filterMap_eq_map_of_forall _ (fun p => p.2)]
  · rw [List.length_map, List.length_zip, List.length_tail, panel500_aligned_length]
    omega
  · intro p hp
    have hmem := List.of_mem_zip hp
    have h1 : p.1 ∈ alignedDates (panel500.take 20) := hmem.1
    have h2 : p.2 ∈ alignedDates (panel500.take 20) := List.mem_of_mem_tail hmem.2
    have hW : ∀ d ∈ alignedDates (panel500.take 20),
        d ∈ (panel500.take 20).map (fun r => r.tanggal) := by
      intro d hd
      rw [panel500_aligned] at hd
      unfold sortAscNat at hd
      exact (List.mem_insertionSort (fun a b : ℕ => a ≤ b)).mp hd
    rw [panel500_pivotCols, List.all_cons, List.all_nil, Bool.and_true]
    rw [panel500_priceAt p.2 (hW p.2 h2), panel500_priceAt p.1 (hW p.1 h1)]
    simp [retNan_one_one]

/-- C3: the return builder first keeps, per selected asset, exactly the
`period` most-recent recorded dates (stated as equality with the spec-side
most-recent-`N` selection), then the pivot `dropna` keeps exactly the
dates common to every selected asset's window; on the concrete frame of
500 daily prices for one asset with window 20, exactly 20 prices are
selected and exactly 19 returns are produced. -/
theorem C3_window_selection
    (df : List Row) (selected : List String) (period : ℕ)
    (hne : selected ≠ []) (hper : 1 ≤ period)
    (hpresent : ∀ c ∈ selected, datesOf df c ≠ []) :
    (∀ c ∈ selected,
      windowDates (selectWindow df selected period) c
        = specMostRecent (datesOf df c) period)
    ∧ (∀ d : ℕ, d ∈ alignedDates (selectWindow df selected period)
        ↔ ∀ c ∈ selected, d ∈ windowDates (selectWindow df selected period) c)
    ∧ (selectWindow panel500 ["A"] 20).length = 20
    ∧ (returnDates panel500 ["A"] 20).length = 19 :=
  ⟨fun c hc => windowDates_eq_specMostRecent df selected period c hc,
   alignedDates_mem df selected period hne hper hpresent,
   panel500_selectWindow_length,
   panel500_returnDates_length⟩

/-- C3 witness: the statement instantiated at the concrete frame of 500
daily prices, one asset, window 20. -/
theorem C3_witness :
    windowDates (selectWindow panel500 ["A"] 20) "A"
      = specMostRecent (datesOf panel500 "A") 20
    ∧ (selectWindow panel500 ["A"] 20).length = 20
    ∧ (returnDates panel500 ["A"] 20).length = 19 := by
  have hp : ∀ c ∈ ["A"], datesOf panel500 c ≠ [] := by
    intro c hc
    have hcA : c = "A" := by simpa using hc
    subst hcA
    rw [panel500_datesOf]
    intro hnil
    have hlen := congrArg List.length hnil
    simp at hlen
  have h := C3_window_selection panel500 ["A"] 20 (by simp) (by norm_num) hp
  exact ⟨h.1 "A" (by simp), h.2.2.1, h.2.2.2⟩

end PortfolioApp
